import Mathlib

/-!
Shallow embedding of `src/oemof/solph/_plumbing.py`: the `sequence`
normalizer and the `_Sequence` lazy-sequence class, together with proofs
about their behaviour.
-/

namespace Plumbing

/-- Python scalar-like values that occur as sequence elements here:
`None`, integers, booleans and strings. -/
inductive PyVal where
  | vnone
  | vint (n : Int)
  | vbool (b : Bool)
  | vstr (s : String)
  deriving DecidableEq, Repr

/-- Python exception kinds raised by the embedded code paths. -/
inductive PyError where
  | keyError
  | valueError
  | indexError
  | zeroDivisionError
  | typeError
  deriving DecidableEq, Repr

/-- State of a `_Sequence` instance: the attributes set in
`_Sequence.__init__`, plus `data`, the inherited `UserList` payload,
which stays `[]` because no positional argument is ever passed and the
private materializer is never invoked. -/
structure PySequence where
  default : PyVal
  periodic_values : Option (List PyVal)
  default_changed : Bool
  highest_index : Int
  period_length : Option Int
  data : List PyVal
  deriving DecidableEq, Repr

/-- Python truthiness of `self.periodic_values`: `None` and the empty
list are falsy, a non-empty list is truthy. -/
def truthyPeriodic (s : PySequence) : Bool :=
  match s.periodic_values with
  | some p => !p.isEmpty
  | none => false

/-- `_Sequence.__init__(default=None, periodic_values=None, highest_index=-1)`:
raises `ValueError` when both `default` and `periodic_values` are given
(not `None`); sets
`period_length = int(highest_index / len(periodic_values)) if periodic_values else None`,
where `int(a / b)` truncates toward zero, hence `Int.tdiv`; and
`UserList.__init__` with no positional argument leaves `data = []`. -/
def mkSequence (default : PyVal) (periodic_values : Option (List PyVal))
    (highest_index : Int) : Except PyError PySequence :=
  if default ≠ PyVal.vnone ∧ periodic_values ≠ none then
    .error .valueError
  else
    .ok { default := default
          periodic_values := periodic_values
          default_changed := false
          highest_index := highest_index
          period_length :=
            match periodic_values with
            | some p => if p.isEmpty then none
                        else some (Int.tdiv highest_index p.length)
            | none => none
          data := [] }

/-- Classification of the argument of `sequence` by its `isinstance`
dispatch: a `MutableMapping` carrying the keys `len` and `values`, some
other non-string iterable, or anything else (a scalar, a string or
`None` — strings are explicitly excluded from the iterable branch). -/
inductive PyInput where
  | mapSpec (len : Int) (values : List PyVal)
  | coll (xs : List PyVal)
  | scalar (v : PyVal)
  deriving DecidableEq, Repr

/-- What `sequence` returns: the original iterable unchanged, or a
freshly constructed `_Sequence`. -/
inductive NormResult where
  | passthrough (xs : List PyVal)
  | seq (s : PySequence)
  deriving DecidableEq, Repr

/-- `sequence(iterable_or_scalar)`. For a mutable mapping it computes
`iterable_or_scalar["len"] % len(iterable_or_scalar["values"])` —
Python `%` raises `ZeroDivisionError` on a zero divisor and matches
`Int.emod` for a positive one — raises `KeyError` when the remainder is
nonzero, and otherwise builds a periodic `_Sequence`; any other
non-string iterable is returned unchanged; everything else becomes a
broadcast `_Sequence` with itself as the default. -/
def sequence : PyInput → Except PyError NormResult
  | .mapSpec L vals =>
      if vals.length = 0 then .error .zeroDivisionError
      else if L % (vals.length : Int) ≠ 0 then .error .keyError
      else
        match mkSequence PyVal.vnone (some vals) L with
        | .ok s => .ok (.seq s)
        | .error e => .error e
  | .coll xs => .ok (.passthrough xs)
  | .scalar v =>
      match mkSequence v none (-1) with
      | .ok s => .ok (.seq s)
      | .error e => .error e

/-- Python list subscription `xs[i]`: a negative index counts from the
end of the list; anything still outside `[0, len(xs))` raises
`IndexError`. -/
def pyListGet (xs : List PyVal) (i : Int) : Except PyError PyVal :=
  let j : Int := if i < 0 then i + xs.length else i
  if 0 ≤ j ∧ j < (xs.length : Int) then
    match xs.get? j.toNat with
    | some v => .ok v
    | none => .error .indexError
  else .error .indexError

/-- `_Sequence.__getitem__`: when `periodic_values` is truthy,
`period = key // period_length` (Python `//` is floor division,
`Int.fdiv`; a zero `period_length` makes `//` raise
`ZeroDivisionError`, a `None` one would raise `TypeError`) and the
result is `periodic_values[period]`; otherwise the high-water mark
grows to `max(highest_index, key)` and `default` is returned. -/
def getitem (s : PySequence) (key : Int) : Except PyError PyVal × PySequence :=
  if truthyPeriodic s then
    match s.periodic_values, s.period_length with
    | some p, some w =>
        (if w = 0 then .error .zeroDivisionError
         else pyListGet p (Int.fdiv key w), s)
    | _, _ => (.error .typeError, s)
  else
    (.ok s.default, { s with highest_index := max s.highest_index key })

/-- `_Sequence.__len__`: `highest_index` in the periodic branch,
`max(len(self.data), highest_index + 1)` otherwise. Neither branch
mutates the instance. -/
def pyLen (s : PySequence) : Int × PySequence :=
  (if truthyPeriodic s then s.highest_index
   else max (s.data.length : Int) (s.highest_index + 1), s)

/-- `_Sequence.__iter__`: the periodic branch iterates a fresh list with
each pattern value repeated `period_length` times (`range` of a
negative number is empty, hence `Int.toNat`); the broadcast branch is
`repeat(self.default, self.highest_index + 1)`. Neither branch mutates
the instance. -/
def pyIter (s : PySequence) : Except PyError (List PyVal) × PySequence :=
  if truthyPeriodic s then
    match s.periodic_values, s.period_length with
    | some p, some w =>
        (.ok (p.flatMap (fun v => List.replicate w.toNat v)), s)
    | _, _ => (.error .typeError, s)
  else
    (.ok (List.replicate (s.highest_index + 1).toNat s.default), s)

/-- The `_Sequence` that `sequence` builds for a scalar, string or
`None` argument: `_Sequence(default=iterable_or_scalar)`. -/
def mkBroadcast (v : PyVal) : PySequence :=
  { default := v, periodic_values := none, default_changed := false
    highest_index := -1, period_length := none, data := [] }

/-- The `_Sequence` that `sequence` builds for a well-formed periodic
mapping: `_Sequence(highest_index=m["len"], periodic_values=m["values"])`. -/
def mkPeriodic (L : Int) (p : List PyVal) : PySequence :=
  { default := PyVal.vnone, periodic_values := some p
    default_changed := false, highest_index := L
    period_length := if p.isEmpty then none else some (Int.tdiv L p.length)
    data := [] }

/-- Threading a list of `__getitem__` calls through a `_Sequence`. -/
def readAll (s : PySequence) (ks : List Int) : PySequence :=
  ks.foldl (fun t k => (getitem t k).2) s

example : sequence (.mapSpec 9 [PyVal.vint 0, PyVal.vint 1, PyVal.vint 2]) =
    .ok (.seq (mkPeriodic 9 [PyVal.vint 0, PyVal.vint 1, PyVal.vint 2])) := rfl

example : sequence (.mapSpec 10 [PyVal.vint 0, PyVal.vint 1, PyVal.vint 2]) =
    .error .keyError := rfl

example : sequence (.mapSpec 9 []) = .error .zeroDivisionError := rfl

example : (getitem (mkPeriodic 9 [PyVal.vint 0, PyVal.vint 1, PyVal.vint 2]) 4).1 =
    .ok (PyVal.vint 1) := rfl

example : (getitem (mkPeriodic 9 [PyVal.vint 0, PyVal.vint 1, PyVal.vint 2]) (-1)).1 =
    .ok (PyVal.vint 2) := rfl

example : (getitem (mkPeriodic 9 [PyVal.vint 0, PyVal.vint 1, PyVal.vint 2]) (-10)).1 =
    .error .indexError := rfl

example : (getitem (mkPeriodic 9 [PyVal.vint 0, PyVal.vint 1, PyVal.vint 2]) 9).1 =
    .error .indexError := rfl

example : (pyLen (readAll (mkBroadcast (PyVal.vint 7)) [2, 5])).1 = 6 := rfl

example : (pyIter (mkPeriodic 9 [PyVal.vint 0, PyVal.vint 1, PyVal.vint 2])).1 =
    .ok [PyVal.vint 0, PyVal.vint 0, PyVal.vint 0, PyVal.vint 1, PyVal.vint 1,
      PyVal.vint 1, PyVal.vint 2, PyVal.vint 2, PyVal.vint 2] := rfl

/-! ## Helper lemmas -/

lemma sequence_scalar_eq (v : PyVal) :
    sequence (.scalar v) = .ok (.seq (mkBroadcast v)) := by
  simp [sequence, mkSequence, mkBroadcast]

lemma truthyPeriodic_mkPeriodic {L : Int} {p : List PyVal} (hp : p ≠ []) :
    truthyPeriodic (mkPeriodic L p) = true := by
  simp [truthyPeriodic, mkPeriodic, hp]

lemma sequence_mapSpec_eq_ok {L : Int} {p : List PyVal} (hp : p ≠ [])
    (hd : L % (p.length : Int) = 0) :
    sequence (.mapSpec L p) = .ok (.seq (mkPeriodic L p)) := by
  have hn : p.length ≠ 0 := by simpa using List.length_pos.2 hp |>.ne'
  have hpe : p.isEmpty = false := by simp [List.isEmpty_iff, hp]
  simp [sequence, mkSequence, mkPeriodic, hn, hd, hpe]

lemma sequence_mapSpec_eq_keyError {L : Int} {p : List PyVal} (hp : p ≠ [])
    (hd : L % (p.length : Int) ≠ 0) :
    sequence (.mapSpec L p) = .error .keyError := by
  have hn : p.length ≠ 0 := by simpa using List.length_pos.2 hp |>.ne'
  simp [sequence, hn, hd]

lemma pyListGet_ok_of_nonneg {xs : List PyVal} {i : Int} (h0 : 0 ≤ i)
    (hlt : i < (xs.length : Int)) :
    pyListGet xs i = .ok (xs.getD i.toNat PyVal.vnone) := by
  have hi : ¬ i < 0 := by omega
  have hn : i.toNat < xs.length := by omega
  rw [List.getD_eq_getElem?_getD, List.getElem?_eq_getElem hn]
  simp only [pyListGet, hi, if_false, List.get?_eq_getElem?,
    List.getElem?_eq_getElem hn]
  rw [if_pos ⟨h0, hlt⟩]
  rfl

lemma pyListGet_ok_of_neg {xs : List PyVal} {i : Int} (hi : i < 0)
    (h0 : 0 ≤ i + (xs.length : Int)) :
    pyListGet xs i = .ok (xs.getD (i + (xs.length : Int)).toNat PyVal.vnone) := by
  have hn : (i + (xs.length : Int)).toNat < xs.length := by omega
  rw [List.getD_eq_getElem?_getD, List.getElem?_eq_getElem hn]
  simp only [pyListGet, hi, if_true, List.get?_eq_getElem?,
    List.getElem?_eq_getElem hn]
  rw [if_pos ⟨h0, by omega⟩]
  rfl

lemma pyListGet_indexError_of_ge {xs : List PyVal} {i : Int}
    (h : (xs.length : Int) ≤ i) :
    pyListGet xs i = .error .indexError := by
  have hi : ¬ i < 0 := by omega
  simp only [pyListGet, hi, if_false]
  rw [if_neg (by omega)]

lemma pyListGet_indexError_of_lt {xs : List PyVal} {i : Int}
    (h : i + (xs.length : Int) < 0) :
    pyListGet xs i = .error .indexError := by
  have hi : i < 0 := by omega
  simp only [pyListGet, hi, if_true]
  rw [if_neg (by omega)]

lemma getitem_mkPeriodic_eq {L : Int} {p : List PyVal} (hp : p ≠ [])
    (key : Int) :
    getitem (mkPeriodic L p) key =
      (if Int.tdiv L p.length = 0 then .error .zeroDivisionError
       else pyListGet p (Int.fdiv key (Int.tdiv L p.length)), mkPeriodic L p) := by
  have hpe : p.isEmpty = false := by simp [List.isEmpty_iff, hp]
  simp [getitem, truthyPeriodic, mkPeriodic, hpe]

lemma getitem_broadcast_eq {st : PySequence} (hb : st.periodic_values = none)
    (key : Int) :
    getitem st key =
      (.ok st.default, { st with highest_index := max st.highest_index key }) := by
  simp [getitem, truthyPeriodic, hb]

lemma period_width_eq {L : Int} {p : List PyVal} (hL : 0 ≤ L) :
    Int.tdiv L p.length = L / (p.length : Int) :=
  Int.tdiv_eq_ediv hL (by positivity)

lemma period_width_mul {L : Int} {p : List PyVal}
    (hd : L % (p.length : Int) = 0) :
    (p.length : Int) * (L / (p.length : Int)) = L := by
  have hdvd : (p.length : Int) ∣ L := Int.dvd_of_emod_eq_zero hd
  rw [mul_comm]
  exact Int.ediv_mul_cancel hdvd

lemma period_width_pos {L : Int} {p : List PyVal} (hp : 0 < p.length)
    (hL : 0 < L) (hd : L % (p.length : Int) = 0) :
    0 < L / (p.length : Int) := by
  have hmul := period_width_mul hd
  by_contra hle
  push_neg at hle
  have : (p.length : Int) * (L / (p.length : Int)) ≤ 0 :=
    mul_nonpos_of_nonneg_of_nonpos (by positivity) hle
  omega

/-! ## Claim theorems -/

/-- C6: for every finite, iterable, non-text, non-mapping collection,
`sequence` returns the collection itself unchanged — an identity
pass-through that never reinterprets or wraps the input. -/
theorem C6_passthrough (xs : List PyVal) :
    sequence (.coll xs) = .ok (.passthrough xs) := rfl

/-- C1 as stated is false: for the mapping input with `len = 0` and
`values = []`, the declared length `0` is an exact multiple of the
element count `0`, yet `sequence` fails (with a `ZeroDivisionError`
from the modulus, not a validation error) and constructs nothing. -/
theorem C1_counterexample :
    sequence (.mapSpec 0 []) = .error .zeroDivisionError ∧
    ((([] : List PyVal).length : Int) ∣ 0) :=
  ⟨rfl, ⟨0, rfl⟩⟩

/-- C1 amended: for every mapping input with a non-empty `values`
collection, `sequence` fails with the `KeyError`-backed
`ConfigurationError` at construction time, constructing nothing,
exactly when `len` is not an exact multiple of the element count of
`values`; when it is an exact multiple, it returns a periodic-mode
sequence with `highest_index = len` and `periodic_values = values`.
(With an empty `values` collection the modulus itself fails with a
`ZeroDivisionError`-kind fault instead.) -/
theorem C1_normalize_periodic_validation (L : Int) (p : List PyVal)
    (hp : p ≠ []) :
    (sequence (.mapSpec L p) = .error .keyError ↔ L % (p.length : Int) ≠ 0) ∧
    (L % (p.length : Int) = 0 →
      sequence (.mapSpec L p) = .ok (.seq (mkPeriodic L p)) ∧
      truthyPeriodic (mkPeriodic L p) = true ∧
      (mkPeriodic L p).highest_index = L ∧
      (mkPeriodic L p).periodic_values = some p) := by
  constructor
  · constructor
    · intro herr hd
      rw [sequence_mapSpec_eq_ok hp hd] at herr
      exact Except.noConfusion herr
    · intro hd
      exact sequence_mapSpec_eq_keyError hp hd
  · intro hd
    exact ⟨sequence_mapSpec_eq_ok hp hd, truthyPeriodic_mkPeriodic hp, rfl, rfl⟩

/-- Witness for the amended C1 at concrete inputs: `{len: 10, values:
[0,1,2]}` fails with the `KeyError`-backed `ConfigurationError`, and
`{len: 9, values: [0,1,2]}` builds the periodic sequence. -/
theorem C1_witness :
    sequence (.mapSpec 10 [PyVal.vint 0, PyVal.vint 1, PyVal.vint 2])
      = .error .keyError ∧
    sequence (.mapSpec 9 [PyVal.vint 0, PyVal.vint 1, PyVal.vint 2])
      = .ok (.seq (mkPeriodic 9 [PyVal.vint 0, PyVal.vint 1, PyVal.vint 2])) := by
  refine ⟨?_, ?_⟩
  · exact (C1_normalize_periodic_validation 10
      [PyVal.vint 0, PyVal.vint 1, PyVal.vint 2] (by decide)).1.2 (by decide)
  · exact ((C1_normalize_periodic_validation 9
      [PyVal.vint 0, PyVal.vint 1, PyVal.vint 2] (by decide)).2 (by decide)).1

/-- C9 as stated is false: a periodic specification with an empty
`values` collection does fail at `sequence`/construction time — the
modulus `len % 0` raises a `ZeroDivisionError` before anything is
constructed, rather than deferring the fault to the point of misuse. -/
theorem C9_counterexample :
    sequence (.mapSpec 9 []) = .error .zeroDivisionError := rfl

/-- C9 amended: the eager checks in `sequence` for a periodic
specification are exactly the modulus computation and the divisibility
test: with non-empty `values` it fails with the `KeyError`-backed
`ConfigurationError` exactly when `len` is not a multiple of the
element count (otherwise constructing the periodic sequence), while an
empty `values` collection fails eagerly with a `ZeroDivisionError`-kind
fault; negative indices are not validated at construction — scalar
normalization always succeeds, and a later negative-index read on the
resulting broadcast sequence surfaces no fault at all. -/
theorem C9_eager_validation (L : Int) (p : List PyVal) (v : PyVal) (i : Int) :
    (p = [] → sequence (.mapSpec L p) = .error .zeroDivisionError) ∧
    (p ≠ [] →
      (sequence (.mapSpec L p) = .error .keyError ↔ L % (p.length : Int) ≠ 0)) ∧
    (p ≠ [] → L % (p.length : Int) = 0 →
      sequence (.mapSpec L p) = .ok (.seq (mkPeriodic L p))) ∧
    sequence (.scalar v) = .ok (.seq (mkBroadcast v)) ∧
    (i < 0 → (getitem (mkBroadcast v) i).1 = .ok v) := by
  refine ⟨?_, ?_, ?_, sequence_scalar_eq v, ?_⟩
  · rintro rfl
    rfl
  · intro hp
    constructor
    · intro herr hd
      rw [sequence_mapSpec_eq_ok hp hd] at herr
      exact Except.noConfusion herr
    · intro hd
      exact sequence_mapSpec_eq_keyError hp hd
  · intro hp hd
    exact sequence_mapSpec_eq_ok hp hd
  · intro _
    rw [getitem_broadcast_eq rfl i]
    rfl

/-- Witness for the amended C9 at concrete inputs. -/
theorem C9_witness :
    sequence (.mapSpec 9 ([] : List PyVal)) = .error .zeroDivisionError ∧
    (getitem (mkBroadcast (PyVal.vint 3)) (-4)).1 = .ok (PyVal.vint 3) := by
  have h := C9_eager_validation 9 [] (PyVal.vint 3) (-4)
  exact ⟨h.1 rfl, h.2.2.2.2 (by decide)⟩

/-- C3: for every scalar, string or `None` value `s`, `sequence`
builds a broadcast-mode sequence, and reading any non-negative index
on it — or on any later state of it, since reads preserve the mode and
the default — returns `s` itself. -/
theorem C3_broadcast_read (s : PyVal) (i : Int) (_hi : 0 ≤ i) :
    sequence (.scalar s) = .ok (.seq (mkBroadcast s)) ∧
    ∀ st : PySequence, st.periodic_values = none → st.default = s →
      (getitem st i).1 = .ok s ∧
      (getitem st i).2.periodic_values = none ∧
      (getitem st i).2.default = s := by
  refine ⟨sequence_scalar_eq s, ?_⟩
  intro st h1 h2
  rw [getitem_broadcast_eq h1 i]
  exact ⟨by rw [h2], h1, h2⟩

/-- Witness for C3 at a concrete scalar and indices `0` and `10`:
both reads, the second threaded through the first's state, return the
scalar. -/
theorem C3_witness :
    sequence (.scalar (PyVal.vint 5)) = .ok (.seq (mkBroadcast (PyVal.vint 5))) ∧
    (getitem (mkBroadcast (PyVal.vint 5)) 0).1 = .ok (PyVal.vint 5) ∧
    (getitem ((getitem (mkBroadcast (PyVal.vint 5)) 0).2) 10).1
      = .ok (PyVal.vint 5) := by
  have h0 := C3_broadcast_read (PyVal.vint 5) 0 (by decide)
  have h10 := C3_broadcast_read (PyVal.vint 5) 10 (by decide)
  refine ⟨h0.1, (h0.2 _ rfl rfl).1, ?_⟩
  have hst := h0.2 (mkBroadcast (PyVal.vint 5)) rfl rfl
  exact (h10.2 _ hst.2.1 hst.2.2).1

/-- C2: for every periodic-mode sequence built from a mapping with
total length `L` an exact multiple of the pattern length, the derived
period width is `L / len(p)`; reading any index `0 ≤ i < L` returns the
pattern element at position `i // period_width` (a valid position);
and the reported length is `L`. -/
theorem C2_periodic_semantics (L : Int) (p : List PyVal)
    (hp : 0 < p.length) (hL : 0 ≤ L) (hd : L % (p.length : Int) = 0) :
    sequence (.mapSpec L p) = .ok (.seq (mkPeriodic L p)) ∧
    (mkPeriodic L p).period_length = some (L / (p.length : Int)) ∧
    (∀ i : Int, 0 ≤ i → i < L →
      (getitem (mkPeriodic L p) i).1
        = .ok (p.getD (i / (L / (p.length : Int))).toNat PyVal.vnone) ∧
      (i / (L / (p.length : Int))).toNat < p.length) ∧
    (pyLen (mkPeriodic L p)).1 = L := by
  have hpn : p ≠ [] := by
    intro h
    rw [h] at hp
    exact absurd hp (by decide)
  have hpe : p.isEmpty = false := by simp [List.isEmpty_iff, hpn]
  refine ⟨sequence_mapSpec_eq_ok hpn hd, ?_, ?_, ?_⟩
  · simp [mkPeriodic, hpe, period_width_eq hL]
  · intro i h0 hiL
    have hLpos : 0 < L := lt_of_le_of_lt h0 hiL
    have hw : 0 < L / (p.length : Int) := period_width_pos hp hLpos hd
    have hmul := period_width_mul (p := p) hd
    have hdivlt : i / (L / (p.length : Int)) < (p.length : Int) := by
      rw [Int.ediv_lt_iff_lt_mul hw]
      calc i < L := hiL
        _ = (p.length : Int) * (L / (p.length : Int)) := hmul.symm
        _ = (p.length : Int) * (L / (p.length : Int)) := rfl
    have hdiv0 : 0 ≤ i / (L / (p.length : Int)) := Int.ediv_nonneg h0 hw.le
    rw [getitem_mkPeriodic_eq hpn i]
    simp only
    rw [if_neg (by rw [period_width_eq hL]; omega)]
    rw [period_width_eq hL, Int.fdiv_eq_ediv i hw.le]
    refine ⟨pyListGet_ok_of_nonneg hdiv0 hdivlt, by omega⟩
  · have ht := @truthyPeriodic_mkPeriodic L p hpn
    simp [pyLen, ht]
    rfl

/-- Witness for C2 at `{len: 9, values: [0,1,2]}`: period width `3`,
the sampled reads of the claim, and length `9`. -/
theorem C2_witness :
    (mkPeriodic 9 [PyVal.vint 0, PyVal.vint 1, PyVal.vint 2]).period_length
      = some 3 ∧
    (getitem (mkPeriodic 9 [PyVal.vint 0, PyVal.vint 1, PyVal.vint 2]) 0).1
      = .ok (PyVal.vint 0) ∧
    (getitem (mkPeriodic 9 [PyVal.vint 0, PyVal.vint 1, PyVal.vint 2]) 2).1
      = .ok (PyVal.vint 0) ∧
    (getitem (mkPeriodic 9 [PyVal.vint 0, PyVal.vint 1, PyVal.vint 2]) 3).1
      = .ok (PyVal.vint 1) ∧
    (getitem (mkPeriodic 9 [PyVal.vint 0, PyVal.vint 1, PyVal.vint 2]) 4).1
      = .ok (PyVal.vint 1) ∧
    (getitem (mkPeriodic 9 [PyVal.vint 0, PyVal.vint 1, PyVal.vint 2]) 7).1
      = .ok (PyVal.vint 2) ∧
    (pyLen (mkPeriodic 9 [PyVal.vint 0, PyVal.vint 1, PyVal.vint 2])).1 = 9 := by
  have h := C2_periodic_semantics 9 [PyVal.vint 0, PyVal.vint 1, PyVal.vint 2]
    (by decide) (by decide) (by decide)
  refine ⟨h.2.1, ?_, ?_, ?_, ?_, ?_, h.2.2.2⟩
  · rw [(h.2.2.1 0 (by decide) (by decide)).1]
    rfl
  · rw [(h.2.2.1 2 (by decide) (by decide)).1]
    rfl
  · rw [(h.2.2.1 3 (by decide) (by decide)).1]
    rfl
  · rw [(h.2.2.1 4 (by decide) (by decide)).1]
    rfl
  · rw [(h.2.2.1 7 (by decide) (by decide)).1]
    rfl

lemma readAll_broadcast_eq (s : PySequence) (hb : s.periodic_values = none)
    (ks : List Int) :
    readAll s ks = { s with highest_index := ks.foldl max s.highest_index } := by
  induction ks generalizing s with
  | nil => rfl
  | cons k ks ih =>
      have hstep : (getitem s k).2 = { s with highest_index := max s.highest_index k } := by
        rw [getitem_broadcast_eq hb k]
      show readAll (getitem s k).2 ks = _
      rw [hstep, ih { s with highest_index := max s.highest_index k } hb]
      rfl

lemma foldl_max_perm_eq {l1 l2 : List Int} (h : l1.Perm l2) (a : Int) :
    l1.foldl max a = l2.foldl max a := by
  induction h generalizing a with
  | nil => rfl
  | cons x _ ih => exact ih (max a x)
  | swap x y l =>
      show l.foldl max (max (max a y) x) = l.foldl max (max (max a x) y)
      rw [max_assoc, max_comm y x, ← max_assoc]
  | trans _ _ ih1 ih2 => exact (ih1 a).trans (ih2 a)

lemma le_foldl_max (a : Int) (l : List Int) : a ≤ l.foldl max a := by
  induction l generalizing a with
  | nil => exact le_refl a
  | cons x xs ih => exact le_trans (le_max_left a x) (ih (max a x))

/-- C4: on a broadcast-mode sequence, after any list of reads the
reported length is `max(materialized length, highest index read + 1)`
(the materialized `data` stays empty, and the high-water mark is the
maximum of `-1` and the indices read); it is `0` when nothing was ever
read, it is invariant under permuting the reads, and it never decreases
when further reads follow. -/
theorem C4_broadcast_length (v : PyVal) (ks ks2 more : List Int)
    (hperm : ks.Perm ks2) :
    (pyLen (readAll (mkBroadcast v) ks)).1
      = max ((readAll (mkBroadcast v) ks).data.length : Int)
          (ks.foldl max (-1) + 1) ∧
    (readAll (mkBroadcast v) ks).data = [] ∧
    (ks = [] → (pyLen (readAll (mkBroadcast v) ks)).1 = 0) ∧
    (pyLen (readAll (mkBroadcast v) ks)).1
      = (pyLen (readAll (mkBroadcast v) ks2)).1 ∧
    (pyLen (readAll (mkBroadcast v) ks)).1
      ≤ (pyLen (readAll (mkBroadcast v) (ks ++ more))).1 := by
  have hall : ∀ l : List Int, readAll (mkBroadcast v) l
      = { mkBroadcast v with highest_index := l.foldl max (-1) } := fun l =>
    readAll_broadcast_eq (mkBroadcast v) rfl l
  have hlen : ∀ l : List Int,
      (pyLen (readAll (mkBroadcast v) l)).1 = max 0 (l.foldl max (-1) + 1) := by
    intro l
    rw [hall l]
    simp [pyLen, truthyPeriodic, mkBroadcast]
  refine ⟨?_, ?_, ?_, ?_, ?_⟩
  · rw [hlen ks, hall ks]
    rfl
  · rw [hall ks]
    rfl
  · rintro rfl
    rw [hlen []]
    rfl
  · rw [hlen ks, hlen ks2, foldl_max_perm_eq hperm (-1)]
  · rw [hlen ks, hlen (ks ++ more), List.foldl_append]
    have := le_foldl_max (ks.foldl max (-1)) more
    omega

/-- Witness for C4: reading indices `2` then `5` on a fresh broadcast
instance reports length `6`, reading them in the other order also
reports `6`, and a no-read instance reports `0`. -/
theorem C4_witness :
    (pyLen (readAll (mkBroadcast (PyVal.vint 7)) [2, 5])).1 = 6 ∧
    (pyLen (readAll (mkBroadcast (PyVal.vint 7)) [5, 2])).1 = 6 ∧
    (pyLen (readAll (mkBroadcast (PyVal.vint 7)) [])).1 = 0 := by
  have h := C4_broadcast_length (PyVal.vint 7) [2, 5] [5, 2] [] (by decide)
  have h6 : (pyLen (readAll (mkBroadcast (PyVal.vint 7)) [2, 5])).1 = 6 := by
    rw [h.1, h.2.1]
    rfl
  have h0 := C4_broadcast_length (PyVal.vint 7) [] [] [] (List.Perm.refl [])
  exact ⟨h6, by rw [← h.2.2.2.1]; exact h6, h0.2.2.1 rfl⟩

lemma length_flatMap_replicate (p : List PyVal) (m : Nat) :
    (p.flatMap (fun v => List.replicate m v)).length = p.length * m := by
  induction p with
  | nil => simp
  | cons x xs ih =>
      simp [List.flatMap_cons, ih, Nat.succ_mul, Nat.add_comm]

lemma pyIter_mkPeriodic_eq {L : Int} {p : List PyVal} (hp : p ≠ []) :
    pyIter (mkPeriodic L p) =
      (.ok (p.flatMap (fun v => List.replicate (Int.tdiv L p.length).toNat v)),
       mkPeriodic L p) := by
  have hpe : p.isEmpty = false := by simp [List.isEmpty_iff, hp]
  simp [pyIter, truthyPeriodic, mkPeriodic, hpe]

/-- C5: `iterate()` is restartable with no hidden cursor state. On a
periodic-mode sequence it yields, in order, each pattern element
repeated `period_width` times, for a total of `total_length` elements,
leaves the state unchanged, and a second call yields the identical
ordered result; on a broadcast-mode sequence two successive calls with
no intervening read also leave the state unchanged and yield identical
results. -/
theorem C5_iterate_restartable (L : Int) (p : List PyVal)
    (hp : 0 < p.length) (hL : 0 ≤ L) (hd : L % (p.length : Int) = 0) :
    (pyIter (mkPeriodic L p)).1
      = .ok (p.flatMap (fun v =>
          List.replicate (L / (p.length : Int)).toNat v)) ∧
    (∀ ys, (pyIter (mkPeriodic L p)).1 = .ok ys → ys.length = L.toNat) ∧
    (pyIter (mkPeriodic L p)).2 = mkPeriodic L p ∧
    (pyIter ((pyIter (mkPeriodic L p)).2)).1 = (pyIter (mkPeriodic L p)).1 ∧
    (∀ st : PySequence, st.periodic_values = none →
      (pyIter st).2 = st ∧ (pyIter ((pyIter st).2)).1 = (pyIter st).1) := by
  have hpn : p ≠ [] := List.length_pos.1 hp
  have hout : (pyIter (mkPeriodic L p)).1
      = .ok (p.flatMap (fun v =>
          List.replicate (L / (p.length : Int)).toNat v)) := by
    rw [pyIter_mkPeriodic_eq hpn]
    rw [period_width_eq hL]
  refine ⟨hout, ?_, ?_, ?_, ?_⟩
  · intro ys hys
    rw [hout] at hys
    have hys' : ys = p.flatMap (fun v =>
        List.replicate (L / (p.length : Int)).toNat v) :=
      (Except.ok.inj hys).symm
    have hw0 : 0 ≤ L / (p.length : Int) := Int.ediv_nonneg hL (by positivity)
    have hmul := period_width_mul (p := p) hd
    have hcast : ((p.length * (L / (p.length : Int)).toNat : Nat) : Int) = L := by
      push_cast
      rw [Int.toNat_of_nonneg hw0]
      exact hmul
    rw [hys', length_flatMap_replicate]
    omega
  · rw [pyIter_mkPeriodic_eq hpn]
  · have h2 : (pyIter (mkPeriodic L p)).2 = mkPeriodic L p := by
      rw [pyIter_mkPeriodic_eq hpn]
    rw [h2]
  · intro st hb
    have h2 : (pyIter st).2 = st := by
      simp [pyIter, truthyPeriodic, hb]
    exact ⟨h2, by rw [h2]⟩

/-- Witness for C5 at `{len: 9, values: [0,1,2]}` and a broadcast
instance: the produced list, its length, and the unchanged states. -/
theorem C5_witness :
    (pyIter (mkPeriodic 9 [PyVal.vint 0, PyVal.vint 1, PyVal.vint 2])).1
      = .ok [PyVal.vint 0, PyVal.vint 0, PyVal.vint 0, PyVal.vint 1,
          PyVal.vint 1, PyVal.vint 1, PyVal.vint 2, PyVal.vint 2,
          PyVal.vint 2] ∧
    (pyIter (mkPeriodic 9 [PyVal.vint 0, PyVal.vint 1, PyVal.vint 2])).2
      = mkPeriodic 9 [PyVal.vint 0, PyVal.vint 1, PyVal.vint 2] ∧
    (pyIter (mkBroadcast (PyVal.vint 7))).2 = mkBroadcast (PyVal.vint 7) := by
  have h := C5_iterate_restartable 9 [PyVal.vint 0, PyVal.vint 1, PyVal.vint 2]
    (by decide) (by decide) (by decide)
  refine ⟨?_, h.2.2.1, (h.2.2.2.2 (mkBroadcast (PyVal.vint 7)) rfl).1⟩
  rw [h.1]
  rfl

lemma getitem_frame (st : PySequence) (k : Int) :
    (getitem st k).2
      = { st with highest_index := (getitem st k).2.highest_index } := by
  unfold getitem
  split
  · split <;> rfl
  · rfl

/-- C8: `read` is the only operation that can mutate a `_Sequence`.
`length()` and `iterate()` return the state unchanged in either mode,
and even `read` leaves every attribute other than the broadcast
high-water mark (mode, default, pattern, period width, materialized
data) untouched. -/
theorem C8_observers_pure (st : PySequence) (k : Int) :
    (pyLen st).2 = st ∧ (pyIter st).2 = st ∧
    (getitem st k).2.periodic_values = st.periodic_values ∧
    (getitem st k).2.default = st.default ∧
    (getitem st k).2.data = st.data ∧
    (getitem st k).2.period_length = st.period_length ∧
    (getitem st k).2.default_changed = st.default_changed := by
  have hiter : (pyIter st).2 = st := by
    unfold pyIter
    split
    · split <;> rfl
    · rfl
  refine ⟨rfl, hiter, ?_, ?_, ?_, ?_, ?_⟩ <;> rw [getitem_frame st k]

lemma getitem_mkPeriodic_val {L : Int} {p : List PyVal} (hp : 0 < p.length)
    (hL : 0 ≤ L) (hw : L / (p.length : Int) ≠ 0) (i : Int) :
    (getitem (mkPeriodic L p) i).1
      = pyListGet p (Int.fdiv i (L / (p.length : Int))) := by
  have hpn : p ≠ [] := List.length_pos.1 hp
  rw [getitem_mkPeriodic_eq hpn i]
  simp only
  rw [period_width_eq hL, if_neg hw]

/-- C7 as stated is false: negative indices do not fail fast in either
mode. A broadcast-mode read at `-1` returns the default value, and a
periodic-mode read at `-1` silently wraps around to the last pattern
element. -/
theorem C7_counterexample :
    (getitem (mkBroadcast (PyVal.vint 10)) (-1)).1 = .ok (PyVal.vint 10) ∧
    (getitem (mkPeriodic 9 [PyVal.vint 0, PyVal.vint 1, PyVal.vint 2]) (-1)).1
      = .ok (PyVal.vint 2) :=
  ⟨rfl, rfl⟩

/-- C7 amended: on a periodic-mode sequence with positive total length,
`read` fails fast with an `IndexError`-kind fault for every index at or
beyond `total_length`, and also for every index below `-total_length`;
but indices in `[-total_length, -1]` silently wrap around to a pattern
element, and on a broadcast-mode sequence a negative index returns the
default value without any fault. -/
theorem C7_range_faults (L : Int) (p : List PyVal) (v : PyVal) (i : Int)
    (hp : 0 < p.length) (hL : 0 < L) (hd : L % (p.length : Int) = 0) :
    (L ≤ i → (getitem (mkPeriodic L p) i).1 = .error .indexError) ∧
    (i < -L → (getitem (mkPeriodic L p) i).1 = .error .indexError) ∧
    (-L ≤ i → i < 0 → ∃ vp, (getitem (mkPeriodic L p) i).1 = .ok vp) ∧
    (i < 0 → (getitem (mkBroadcast v) i).1 = .ok v) := by
  have hwpos : 0 < L / (p.length : Int) := period_width_pos hp hL hd
  have hmul := period_width_mul (p := p) hd
  have hval := getitem_mkPeriodic_val hp hL.le hwpos.ne' i
  have hfd : Int.fdiv i (L / (p.length : Int)) = i / (L / (p.length : Int)) :=
    Int.fdiv_eq_ediv i hwpos.le
  refine ⟨?_, ?_, ?_, ?_⟩
  · intro hge
    rw [hval, hfd]
    refine pyListGet_indexError_of_ge ?_
    rw [Int.le_ediv_iff_mul_le hwpos]
    omega
  · intro hlt
    rw [hval, hfd]
    refine pyListGet_indexError_of_lt ?_
    have : i / (L / (p.length : Int)) < -(p.length : Int) := by
      rw [Int.ediv_lt_iff_lt_mul hwpos]
      have : -(p.length : Int) * (L / (p.length : Int)) = -L := by
        rw [neg_mul, hmul]
      omega
    omega
  · intro hge hneg
    have hjneg : i / (L / (p.length : Int)) < 0 := by
      rw [Int.ediv_lt_iff_lt_mul hwpos]
      omega
    have hjge : -(p.length : Int) ≤ i / (L / (p.length : Int)) := by
      rw [Int.le_ediv_iff_mul_le hwpos]
      have : -(p.length : Int) * (L / (p.length : Int)) = -L := by
        rw [neg_mul, hmul]
      omega
    rw [hval, hfd]
    exact ⟨_, pyListGet_ok_of_neg hjneg (by omega)⟩
  · intro _
    rw [getitem_broadcast_eq rfl i]
    rfl

/-- Witness for the amended C7: on `{len: 9, values: [0,1,2]}` the
reads at `9` and at `-10` fail with `IndexError`, the read at `-9`
wraps to a value, and a broadcast read at `-3` returns the default. -/
theorem C7_witness :
    (getitem (mkPeriodic 9 [PyVal.vint 0, PyVal.vint 1, PyVal.vint 2]) 9).1
      = .error .indexError ∧
    (getitem (mkPeriodic 9 [PyVal.vint 0, PyVal.vint 1, PyVal.vint 2]) (-10)).1
      = .error .indexError ∧
    (∃ vp, (getitem (mkPeriodic 9
      [PyVal.vint 0, PyVal.vint 1, PyVal.vint 2]) (-9)).1 = .ok vp) ∧
    (getitem (mkBroadcast (PyVal.vint 4)) (-3)).1 = .ok (PyVal.vint 4) := by
  refine ⟨?_, ?_, ?_, ?_⟩
  · exact (C7_range_faults 9 [PyVal.vint 0, PyVal.vint 1, PyVal.vint 2]
      (PyVal.vint 4) 9 (by decide) (by decide) (by decide)).1 (by decide)
  · exact (C7_range_faults 9 [PyVal.vint 0, PyVal.vint 1, PyVal.vint 2]
      (PyVal.vint 4) (-10) (by decide) (by decide) (by decide)).2.1 (by decide)
  · exact (C7_range_faults 9 [PyVal.vint 0, PyVal.vint 1, PyVal.vint 2]
      (PyVal.vint 4) (-9) (by decide) (by decide) (by decide)).2.2.1
      (by decide) (by decide)
  · exact (C7_range_faults 9 [PyVal.vint 0, PyVal.vint 1, PyVal.vint 2]
      (PyVal.vint 4) (-3) (by decide) (by decide) (by decide)).2.2.2 (by decide)

/-- C10 as stated is false: its opening clause says a negative-index
read never raises in either mode, but on the periodic-mode sequence
from `{len: 9, values: [0,1,2]}` the read at `-10` (below
`-len(p)*period_width = -9`) raises an `IndexError`. -/
theorem C10_counterexample :
    (getitem (mkPeriodic 9 [PyVal.vint 0, PyVal.vint 1, PyVal.vint 2]) (-10)).1
      = .error .indexError := rfl

/-- C10 amended: on a broadcast-mode sequence a negative-index read
never raises — it returns the default value and leaves the reported
length unchanged (the high-water mark is a `max`, so a negative index
cannot move it). On a periodic-mode sequence with pattern `p` and
period width `w`, `read(i)` for `-len(p)*w ≤ i ≤ -1` returns the
pattern element `p[len(p) + (i // w)]` by silent wraparound; for
`i < -len(p)*w` it raises an `IndexError` instead. -/
theorem C10_negative_reads (v : PyVal) (st : PySequence)
    (hb : st.periodic_values = none) (hdef : st.default = v)
    (hhw : -1 ≤ st.highest_index)
    (L : Int) (p : List PyVal) (hp : 0 < p.length) (hL : 0 < L)
    (hd : L % (p.length : Int) = 0) (i : Int) (hi : i < 0) :
    (getitem st i).1 = .ok v ∧
    (pyLen ((getitem st i).2)).1 = (pyLen st).1 ∧
    (-((p.length : Int) * (L / (p.length : Int))) ≤ i →
      (getitem (mkPeriodic L p) i).1
        = .ok (p.getD ((p.length : Int)
            + Int.fdiv i (L / (p.length : Int))).toNat PyVal.vnone)) ∧
    (i < -((p.length : Int) * (L / (p.length : Int))) →
      (getitem (mkPeriodic L p) i).1 = .error .indexError) := by
  have hwpos : 0 < L / (p.length : Int) := period_width_pos hp hL hd
  have hmul := period_width_mul (p := p) hd
  have hval := getitem_mkPeriodic_val hp hL.le hwpos.ne' i
  have hfd : Int.fdiv i (L / (p.length : Int)) = i / (L / (p.length : Int)) :=
    Int.fdiv_eq_ediv i hwpos.le
  have hmax : max st.highest_index i = st.highest_index := by omega
  refine ⟨?_, ?_, ?_, ?_⟩
  · rw [getitem_broadcast_eq hb i, hdef]
  · rw [getitem_broadcast_eq hb i]
    simp [pyLen, truthyPeriodic, hb, hmax]
  · intro hge
    have hjneg : i / (L / (p.length : Int)) < 0 := by
      rw [Int.ediv_lt_iff_lt_mul hwpos]
      omega
    have hjge : -(p.length : Int) ≤ i / (L / (p.length : Int)) := by
      rw [Int.le_ediv_iff_mul_le hwpos, neg_mul]
      omega
    rw [hval, hfd, pyListGet_ok_of_neg hjneg (by omega)]
    rw [add_comm ((p.length : Int)) (i / (L / (p.length : Int)))]
  · intro hlt
    rw [hval, hfd]
    refine pyListGet_indexError_of_lt ?_
    have : i / (L / (p.length : Int)) < -(p.length : Int) := by
      rw [Int.ediv_lt_iff_lt_mul hwpos, neg_mul]
      omega
    omega

/-- Witness for the amended C10: a broadcast read at `-1` returns the
default and keeps length `0`, and on `{len: 9, values: [0,1,2]}` the
read at `-1` wraps to the last pattern element `2` while the read at
`-10` fails. -/
theorem C10_witness :
    (getitem (mkBroadcast (PyVal.vint 5)) (-1)).1 = .ok (PyVal.vint 5) ∧
    (pyLen ((getitem (mkBroadcast (PyVal.vint 5)) (-1)).2)).1
      = (pyLen (mkBroadcast (PyVal.vint 5))).1 ∧
    (getitem (mkPeriodic 9 [PyVal.vint 0, PyVal.vint 1, PyVal.vint 2]) (-1)).1
      = .ok (PyVal.vint 2) ∧
    (getitem (mkPeriodic 9 [PyVal.vint 0, PyVal.vint 1, PyVal.vint 2]) (-10)).1
      = .error .indexError := by
  have h1 := C10_negative_reads (PyVal.vint 5) (mkBroadcast (PyVal.vint 5))
    rfl rfl (by decide) 9 [PyVal.vint 0, PyVal.vint 1, PyVal.vint 2]
    (by decide) (by decide) (by decide) (-1) (by decide)
  have h2 := C10_negative_reads (PyVal.vint 5) (mkBroadcast (PyVal.vint 5))
    rfl rfl (by decide) 9 [PyVal.vint 0, PyVal.vint 1, PyVal.vint 2]
    (by decide) (by decide) (by decide) (-10) (by decide)
  refine ⟨h1.1, h1.2.1, ?_, h2.2.2.2 (by decide)⟩
  rw [h1.2.2.1 (by decide)]
  rfl

end Plumbing
